import Mathlib

/-
Shallow embedding of the Velox versioned-artifact registry (lukedeo/Velox).

The Python sources embedded here are:
  velox/obj.py        - VeloxObject.load / loadpath / _increment / __reload,
                        register_model, clear_registered_names, the filename
                        codec (formatted_filename, get_specifier,
                        get_registration_name, get_semver)
  velox/lite.py       - save_object / load_object (signed envelope path)
  velox/filesystem.py - find_matching_files (glob + ascending sort + reverse)
  velox/tools.py      - timestamp, sha

Modelling conventions:
  - Python strings are List Char; filenames are built and split at that level.
  - The 14-digit UTC timestamps produced by tools.timestamp are all-digit
    fixed-width strings, so lexicographic string order on them coincides with
    numeric order; in the structured candidate model (VxFile) a timestamp is
    carried as the Nat it denotes.
  - The external semantic_version library is modelled on its numeric fragment
    (major.minor.patch); Spec.select is max-of-matching (bestOf / specSelect).
  - The md5 digest of tools.sha is modelled as an injective digest (the
    hashed text itself); the claims only test digest equality and inequality.
  - Fallible Python code returns Except VErr; each VErr constructor stands
    for one Python exception class, messages elided.

The file lists all definitions first, then the theorems about them.
-/

namespace Velox

/-! ### Definitions -/

instance {ε α : Type} [DecidableEq ε] [DecidableEq α] : DecidableEq (Except ε α)
  | .ok a, .ok b => decidable_of_iff (a = b) (by simp)
  | .error a, .error b => decidable_of_iff (a = b) (by simp)
  | .ok _, .error _ => isFalse (by simp)
  | .error _, .ok _ => isFalse (by simp)

/-- Outcome classes of the Python exceptions raised on the code paths
modelled here (velox.exceptions plus the built-ins the code raises). -/
inductive VErr where
  | creationError
  | constraintError
  | valueError
  | ioError
  | typeError
  | runtimeError
deriving DecidableEq, Repr

/-- Numeric fragment of a semantic_version.Version: major.minor.patch.
Pre-release and build tags of the external library are outside the
modelled fragment. -/
structure SemVer where
  major : Nat
  minor : Nat
  patch : Nat
deriving DecidableEq, Repr

/-- Non-strict semantic-version order (numeric fragment): lexicographic on
(major, minor, patch). -/
def verLe (a b : SemVer) : Prop :=
  a.major < b.major ∨
    (a.major = b.major ∧
      (a.minor < b.minor ∨ (a.minor = b.minor ∧ a.patch ≤ b.patch)))

/-- Strict semantic-version order (numeric fragment). -/
def verLt (a b : SemVer) : Prop :=
  a.major < b.major ∨
    (a.major = b.major ∧
      (a.minor < b.minor ∨ (a.minor = b.minor ∧ a.patch < b.patch)))

instance (a b : SemVer) : Decidable (verLe a b) := by
  unfold verLe; infer_instance

instance (a b : SemVer) : Decidable (verLt a b) := by
  unfold verLt; infer_instance

/-- Comparison operators of a semantic_version.Spec clause. -/
inductive CmpOp where
  | ltOp
  | leOp
  | gtOp
  | geOp
  | eqOp
  | neOp
deriving DecidableEq, Repr

/-- One Spec clause, for example (ltOp, 1.0.0) for the clause "<1.0.0",
applied to a candidate version. -/
def opMatch (op : CmpOp) (v w : SemVer) : Prop :=
  match op with
  | .ltOp => verLt v w
  | .leOp => verLe v w
  | .gtOp => verLt w v
  | .geOp => verLe w v
  | .eqOp => v = w
  | .neOp => v ≠ w

instance (op : CmpOp) (v w : SemVer) : Decidable (opMatch op v w) := by
  unfold opMatch; cases op <;> infer_instance

/-- A semantic_version.Spec: the conjunction of its comma-separated
clauses. -/
abbrev VSpec := List (CmpOp × SemVer)

/-- Spec membership test: the version satisfies every clause
(Spec.match of the semantic_version library). -/
def specMatch (cs : VSpec) (v : SemVer) : Prop :=
  ∀ p ∈ cs, opMatch p.1 v p.2

instance (cs : VSpec) (v : SemVer) : Decidable (specMatch cs v) := by
  unfold specMatch; infer_instance

/-- Python max over a list of versions, none when the list is empty; the
final step of semantic_version.Spec.select. -/
def bestOf : List SemVer → Option SemVer
  | [] => none
  | v :: vs =>
    match bestOf vs with
    | none => some v
    | some w => some (if verLt w v then v else w)

/-- Spec.select of the semantic_version library: the maximum of the
versions matching the spec, none when no candidate matches. -/
def specSelect (cs : VSpec) (vs : List SemVer) : Option SemVer :=
  bestOf (vs.filter (fun v => decide (specMatch cs v)))

/-- Candidate artifact file for a registered class, as matched by the
glob pattern of VeloxObject.loadpath: the 14-digit UTC timestamp of its
filename (carried as the Nat it denotes: lexicographic order on the
fixed-width digit strings produced by tools.timestamp equals numeric
order) and its embedded semantic version (as parsed by get_semver).
All candidates share the registered logical name, which the glob fixes. -/
structure VxFile where
  ts : Nat
  ver : SemVer
deriving DecidableEq, Repr

/-- Ascending order on candidate filenames used by the Python sorted()
inside find_matching_files: timestamp-major (the timestamp is the leading
fixed-width field of the encoded filename). Among files sharing a
timestamp the source orders by the version text; that tie order is never
observable through loadpath (with a constraint all surviving files share
one version, without one only the maximal timestamp is selected), and is
modelled as the semantic-version order. -/
def fileLe (a b : VxFile) : Prop :=
  a.ts < b.ts ∨ (a.ts = b.ts ∧ verLe a.ver b.ver)

instance (a b : VxFile) : Decidable (fileLe a b) := by
  unfold fileLe; infer_instance

instance : IsTotal VxFile fileLe :=
  ⟨fun a b => by unfold fileLe verLe; omega⟩

instance : IsTrans VxFile fileLe :=
  ⟨fun a b c hab hbc => by unfold fileLe verLe at *; omega⟩

/-- find_matching_files of velox/filesystem.py on a structured candidate
set: ascending sort followed by reversal, yielding most-recent-first. -/
def findMatchingFilesV (files : List VxFile) : List VxFile :=
  (List.insertionSort fileLe files).reverse

/-- Placeholder candidate; only returned through headD on lists proved
nonempty, mirroring the always-in-bounds Python filelist[0]. -/
def defaultFile : VxFile := ⟨0, ⟨0, 0, 0⟩⟩

/-- VeloxObject.loadpath on the structured candidate set (prefix stitching
elided): fail when no candidate matched the glob; with a registered
version spec, select the best matching version via Spec.select, fail when
none matches, keep only files carrying the selected version; finally
return the first (most recent) remaining file. -/
def loadpath (c : Option VSpec) (files : List VxFile) : Except VErr VxFile :=
  let filelist := findMatchingFilesV files
  if filelist = [] then .error .constraintError
  else
    match c with
    | none => .ok (filelist.headD defaultFile)
    | some cs =>
      match specSelect cs (filelist.map VxFile.ver) with
      | none => .error .constraintError
      | some best =>
        .ok ((filelist.filter (fun f => f.ver == best)).headD defaultFile)

/-- Example candidate set from the spec: versions 1.0.0 (most recent
timestamp), 0.2.1, 0.3.0 (oldest timestamp). -/
def demoFiles : List VxFile :=
  [⟨3, ⟨1, 0, 0⟩⟩, ⟨2, ⟨0, 2, 1⟩⟩, ⟨1, ⟨0, 3, 0⟩⟩]

/-- Fuel-driven digit extraction: prepend the decimal digits of n to the
accumulator, least significant digit computed first. The fuel always
suffices when it exceeds n. -/
def toDigitsCore : Nat → Nat → List Char → List Char
  | 0, _, acc => acc
  | fuel + 1, n, acc =>
    let d := Nat.digitChar (n % 10)
    if n < 10 then d :: acc else toDigitsCore fuel (n / 10) (d :: acc)

/-- Python str(n) for a natural number: its decimal digit characters,
most significant first (0 prints as the single character 0). -/
def natChars (n : Nat) : List Char := toDigitsCore (n + 1) n []

/-- Reading of a decimal digit string (Python int on canonical digit
strings), folding left over the characters. -/
def charsToNat (cs : List Char) : Nat :=
  cs.foldl (fun a c => 10 * a + (c.toNat - 48)) 0

/-- Python str.split(sep) on characters: split at every separator
occurrence, keeping empty segments. -/
def splitChar (sep : Char) : List Char → List (List Char)
  | [] => [[]]
  | c :: cs =>
    match splitChar sep cs with
    | [] => [[]]
    | g :: gs => if c = sep then [] :: g :: gs else (c :: g) :: gs

/-- Root part of os.path.splitext: the characters before the last dot,
unchanged when no dot occurs. (The leading-dot special case of os.path
cannot arise for Velox filenames, which begin with a digit timestamp.) -/
def splitextRoot (cs : List Char) : List Char :=
  match cs.reverse.dropWhile (fun c => c != '.') with
  | [] => cs
  | _ :: rest => rest.reverse

/-- String form of a version (semantic_version.Version.__str__ on the
numeric fragment): major.minor.patch. -/
def verChars (v : SemVer) : List Char :=
  natChars v.major ++ ['.'] ++ natChars v.minor ++ ['.'] ++ natChars v.patch

/-- Parse of semantic_version.Version on a canonical numeric version
string: three dot-separated decimal numbers. -/
def parseVer (cs : List Char) : Option SemVer :=
  match splitChar '.' cs with
  | [a, b, c] => some ⟨charsToNat a, charsToNat b, charsToNat c⟩
  | _ => none

/-- Composite registered name computed in register_model.__init__:
'{registered_name}_v{version}'. -/
def registeredName (name : List Char) (v : SemVer) : List Char :=
  name ++ ['_', 'v'] ++ verChars v

/-- VeloxObject.formatted_filename: '{timestamp}_{registeredName}.vx'. -/
def formattedFilename (ts name : List Char) (v : SemVer) : List Char :=
  ts ++ ['_'] ++ registeredName name v ++ ['.', 'v', 'x']

/-- get_filename of obj.py: the basename without its extension. The
os.path.split step is the identity here since the codec theorems feed it
bare filenames. -/
def getFilename (cs : List Char) : List Char := splitextRoot cs

/-- _get_naming_info: the extension-free filename split on underscores. -/
def namingInfo (cs : List Char) : List (List Char) :=
  splitChar '_' (getFilename cs)

/-- get_specifier: the timestamp field of the filename (index 0). -/
def getSpecifier (cs : List Char) : List Char := (namingInfo cs).getD 0 []

/-- get_registration_name: the logical-name field of the filename
(index 1). -/
def getRegistrationName (cs : List Char) : List Char :=
  (namingInfo cs).getD 1 []

/-- get_semver: SemVer(parts[2][1:]), the third filename field with its
leading letter v removed, parsed as a version. -/
def getSemver (cs : List Char) : Option SemVer :=
  parseVer (((namingInfo cs).getD 2 []).drop 1)

/-- The process-wide VeloxObject._registered_object_names table. -/
abbrev Registry := List (List Char)

/-- Registration bookkeeping of register_model.__init__: compute the
composite key '{registered_name}_v{version}' (the SemVer string
normalization is the identity on the modelled numeric fragment), fail
with VeloxCreationError when the key is already registered, else append
it to the table. -/
def registerModel (reg : Registry) (name : List Char) (v : SemVer) :
    Except VErr Registry :=
  let key := registeredName name v
  if key ∈ reg then .error .creationError
  else .ok (reg ++ [key])

/-- VeloxObject.clear_registered_names: empties the table. -/
def clearRegisteredNames (_reg : Registry) : Registry := []

/-- Mutable per-instance state of a VeloxObject, the user payload
abstracted to one field. scheduler and jobPointer carry identity tokens
for the _scheduler and _job_pointer objects; incrUnderway and pending
model the name-mangled private bookkeeping fields
_VeloxObject__incr_underway and _VeloxObject__replacement (pending: a
replacement future is currently held). -/
structure ObjState (α : Type) where
  payload : α
  scheduler : Nat
  jobPointer : Option Nat
  currentSha : Option (List Char)
  incrUnderway : Bool
  pending : Bool
deriving Repr

/-- The current_sha property setter: assigning fails with ValueError
unless the previous value was None. -/
def setCurrentSha {α : Type} (st : ObjState α) (v : List Char) :
    Except VErr (ObjState α) :=
  if st.currentSha ≠ none then .error .valueError
  else .ok { st with currentSha := some v }

/-- tools.sha of get_filename(filepath) as computed in VeloxObject.load:
the md5 digest is modelled as an injective digest, here the hashed text
(the extension-free filename of the candidate) itself. -/
def fileSha (name : List Char) (f : VxFile) : List Char :=
  natChars f.ts ++ ['_'] ++ registeredName name f.ver

/-- Result of the user-defined _load hook: either an object satisfying
the VeloxObject contract (carrying modelled managed state) or one that
does not inherit from VeloxObject. -/
inductive HookResult (α : Type) where
  | velox (st : ObjState α)
  | nonVelox

/-- VeloxObject.load: resolve a candidate through loadpath, refuse a
candidate whose filename digest equals skip_sha (VeloxConstraintError),
run the user _load hook on the candidate, fail with TypeError when the
result does not inherit from VeloxObject, and set current_sha exactly
once through its setter. -/
def veloxLoad {α : Type} (name : List Char) (c : Option VSpec)
    (files : List VxFile) (hook : VxFile → HookResult α)
    (skipSha : Option (List Char)) : Except VErr (ObjState α) :=
  match loadpath c files with
  | .error e => .error e
  | .ok f =>
    let filesha := fileSha name f
    if skipSha = some filesha then .error .constraintError
    else
      match hook f with
      | .nonVelox => .error .typeError
      | .velox st => setCurrentSha st filesha

/-- VeloxObject._increment: when the replacement's content hash differs
from the current one, copy every instance field of the replacement into
self except _scheduler and _job_pointer (the name-mangled private fields
do not start with a double underscore in __dict__, so the loop copies
them as well); afterwards unconditionally clear __incr_underway and drop
the __replacement future. When the hashes are equal, skip the copy and
only clear the bookkeeping fields. -/
def increment {α : Type} (self repl : ObjState α) : ObjState α :=
  if self.currentSha ≠ repl.currentSha then
    { payload := repl.payload
      scheduler := self.scheduler
      jobPointer := self.jobPointer
      currentSha := repl.currentSha
      incrUnderway := false
      pending := false }
  else
    { self with incrUnderway := false, pending := false }

/-- VeloxObject.__reload, the unscheduled refresh: mark an increment
underway and hold the replacement future, run the asynchronous load with
skip_sha None, and promote its result through _increment. A
VeloxConstraintError raised by the resolution step is caught and only
logged, leaving the object as it was (with the bookkeeping flag and the
failed future still set, exactly as in the source, whose reset lines are
skipped by the exception); any other exception propagates. -/
def reloadUnscheduled {α : Type} (self : ObjState α) (name : List Char)
    (c : Option VSpec) (files : List VxFile)
    (hook : VxFile → HookResult α) : Except VErr (ObjState α) :=
  let started := { self with incrUnderway := true, pending := true }
  match veloxLoad name c files hook none with
  | .error .constraintError => .ok started
  | .error e => .error e
  | .ok repl => .ok (increment started repl)

/-- Python str.isalnum: non-empty and every character alphanumeric
(ASCII fragment). -/
def pyIsAlnum (s : List Char) : Bool :=
  !s.isEmpty && s.all Char.isAlphanum

/-- Star step of glob matching: try the continuation on every suffix of
the string (the star consumes zero or more characters). -/
def globStar (f : List Char → Bool) : List Char → Bool
  | [] => f []
  | c :: cs => f (c :: cs) || globStar f cs

/-- fnmatch / glob matching restricted to the patterns Velox emits: a
literal character matches itself and the star matches any (possibly
empty) character sequence; the remaining fnmatch operators never occur in
Velox patterns. -/
def globMatch : List Char → List Char → Bool
  | [], s => s.isEmpty
  | q :: ps, s =>
    if q = '*' then globStar (fun t => globMatch ps t) s
    else
      match s with
      | [] => false
      | c :: cs => q == c && globMatch ps cs

/-- Lexicographic (code point) order on Python strings, as compared by
sorted() on filenames. -/
def lexLe : List Char → List Char → Bool
  | [], _ => true
  | _ :: _, [] => false
  | a :: s, b :: t => if a = b then lexLe s t else decide (a < b)

/-- Propositional form of lexLe, the sort order of find_matching_files. -/
def lexLeP (a b : List Char) : Prop := lexLe a b = true

instance (a b : List Char) : Decidable (lexLeP a b) := by
  unfold lexLeP; infer_instance

/-- find_matching_files of velox/filesystem.py on flat filename lists:
the names matching the glob specifier, sorted ascending, then reversed
(most-recent-first for the timestamped obj path, lexicographically
greatest-first in general). -/
def findMatchingLite (names : List (List Char)) (pat : List Char) :
    List (List Char) :=
  (List.insertionSort lexLeP (names.filter (fun n => globMatch pat n))).reverse

/-- Signed envelope written by save_object: the payload and the
deserialization class tag ({'data': ..., 'class': ...}), wrapped by an
itsdangerous signature. The keyed signature is modelled as ideal: the
envelope records the effective signing key and verification succeeds
exactly when the loading key equals it. -/
structure LiteEnv (δ : Type) where
  payload : δ
  classTag : List Char
  macKey : List Char
deriving Repr, DecidableEq

/-- Contents of a storage prefix for the lite path: filename/envelope
pairs. -/
abbrev LiteStore (δ : Type) := List (List Char × LiteEnv δ)

/-- The module-level default signing secret of velox/lite.py. -/
def DEFAULT_SECRET : List Char := "velox".toList

/-- The Python expression (secret or DEFAULT_SECRET): a missing or empty
(falsy) secret falls back to the module default. -/
def effSecret : Option (List Char) → List Char
  | none => DEFAULT_SECRET
  | some s => if s = [] then DEFAULT_SECRET else s

/-- Filenames present at the prefix. -/
def storeNames {δ : Type} (s : LiteStore δ) : List (List Char) :=
  s.map Prod.fst

/-- Write through get_aware_filepath in wb mode: replaces an existing
object at the name, else adds one. -/
def storeWrite {δ : Type} (s : LiteStore δ) (fn : List Char)
    (env : LiteEnv δ) : LiteStore δ :=
  s.filter (fun e => e.1 != fn) ++ [(fn, env)]

/-- Read through get_aware_filepath in rb mode. -/
def storeRead {δ : Type} (s : LiteStore δ) (fn : List Char) :
    Option (LiteEnv δ) :=
  (s.find? (fun e => e.1 == fn)).map Prod.snd

/-- Versioned lite filename '{name}-v{version}'. -/
def liteVName (name : List Char) (k : Nat) : List Char :=
  name ++ ['-', 'v'] ++ natChars k

/-- The glob specifier '{name}-*' used by the versioned lite scheme. -/
def litePattern (name : List Char) : List Char := name ++ ['-', '*']

/-- save_object of velox/lite.py: reject a non-alphanumeric name with
ValueError; versioned, count the existing matches of '{name}-*' and write
'{name}-v{count+1}'; unversioned, fail with IOError when a file with
exactly the name already exists, else write under the name. The envelope
carries the payload, the deserialization class tag, and the effective
signing key. The assigned filename is returned alongside the new store
(the source logs it). -/
def saveObject {δ : Type} (s : LiteStore δ) (name : List Char)
    (payload : δ) (tag : List Char) (versioned : Bool)
    (secret : Option (List Char)) : Except VErr (LiteStore δ × List Char) :=
  if ¬ pyIsAlnum name then .error .valueError
  else if versioned then
    let version := (findMatchingLite (storeNames s) (litePattern name)).length + 1
    let fn := liteVName name version
    .ok (storeWrite s fn ⟨payload, tag, effSecret secret⟩, fn)
  else if findMatchingLite (storeNames s) name ≠ [] then .error .ioError
  else .ok (storeWrite s name ⟨payload, tag, effSecret secret⟩, name)

/-- load_object of velox/lite.py: reject a non-alphanumeric name with
ValueError before consulting storage at all; resolve the candidate
(versioned: the first entry of the most-recent-first match list of
'{name}-*'; unversioned: the exact name), failing with
VeloxConstraintError when the candidate set is empty; verify the
signature, failing with the unauthorized RuntimeError on a key mismatch;
finally dispatch the deserialization hook named by the class tag, which
reconstructs the stored payload. -/
def loadObject {δ : Type} (s : LiteStore δ) (name : List Char)
    (versioned : Bool) (secret : Option (List Char)) : Except VErr δ :=
  if ¬ pyIsAlnum name then .error .valueError
  else
    let resolved : Except VErr (List Char) :=
      if versioned then
        match findMatchingLite (storeNames s) (litePattern name) with
        | [] => .error .constraintError
        | fn :: _ => .ok fn
      else
        match findMatchingLite (storeNames s) name with
        | [] => .error .constraintError
        | _ :: _ => .ok name
    match resolved with
    | .error e => .error e
    | .ok fn =>
      match storeRead s fn with
      | none => .error .ioError
      | some env =>
        if env.macKey ≠ effSecret secret then .error .runtimeError
        else .ok env.payload

/-- N sequential save_object calls with fixed arguments: returns the
final store and the per-attempt outcomes (the filename written, or none
when the attempt raised); a failed attempt leaves the store untouched. -/
def saveSeq {δ : Type} (name : List Char) (payload : δ) (tag : List Char)
    (versioned : Bool) (secret : Option (List Char)) :
    Nat → LiteStore δ → LiteStore δ × List (Option (List Char))
  | 0, s => (s, [])
  | n + 1, s =>
    match saveObject s name payload tag versioned secret with
    | .ok (s1, fn) =>
      let r := saveSeq name payload tag versioned secret n s1
      (r.1, some fn :: r.2)
    | .error _ =>
      let r := saveSeq name payload tag versioned secret n s
      (r.1, none :: r.2)

/-- Failing input for the versioned lite load: the store left by ten
versioned saves of OBJECTNAME, payload i stored under OBJECTNAME-vi. -/
def tenVersionStore : LiteStore Nat :=
  (List.range 10).map
    (fun i => (liteVName "OBJECTNAME".toList (i + 1),
      ⟨i + 1, "dill".toList, DEFAULT_SECRET⟩))

/-! ### Theorems -/

theorem bestOf_eq_none {vs : List SemVer} : bestOf vs = none ↔ vs = [] := by
  cases vs with
  | nil => simp [bestOf]
  | cons v vs =>
    simp only [bestOf]
    cases h : bestOf vs <;> simp

theorem bestOf_mem {vs : List SemVer} {m : SemVer} (h : bestOf vs = some m) :
    m ∈ vs := by
  induction vs generalizing m with
  | nil => simp [bestOf] at h
  | cons v vs ih =>
    simp only [bestOf] at h
    cases hb : bestOf vs with
    | none => rw [hb] at h; simp at h; simp [h]
    | some w =>
      rw [hb] at h
      simp only [Option.some.injEq] at h
      by_cases hlt : verLt w v
      · rw [if_pos hlt] at h; simp [h]
      · rw [if_neg hlt] at h
        exact List.mem_cons_of_mem _ (h ▸ ih hb)

theorem verLe_refl (a : SemVer) : verLe a a := by
  unfold verLe; omega

theorem verLe_trans {a b c : SemVer} (hab : verLe a b) (hbc : verLe b c) :
    verLe a c := by
  unfold verLe at *; omega

theorem verLe_total (a b : SemVer) : verLe a b ∨ verLe b a := by
  unfold verLe; omega

theorem verLe_of_not_lt {a b : SemVer} (h : ¬ verLt a b) : verLe b a := by
  unfold verLt at h; unfold verLe; omega

theorem verLe_of_lt {a b : SemVer} (h : verLt a b) : verLe a b := by
  unfold verLt at h; unfold verLe; omega

theorem bestOf_ge {vs : List SemVer} {m : SemVer} (h : bestOf vs = some m) :
    ∀ x ∈ vs, verLe x m := by
  induction vs generalizing m with
  | nil => simp [bestOf] at h
  | cons v vs ih =>
    intro x hx
    simp only [bestOf] at h
    cases hb : bestOf vs with
    | none =>
      rw [hb] at h; simp only [Option.some.injEq] at h
      rcases List.mem_cons.1 hx with rfl | hx
      · exact h ▸ verLe_refl x
      · exact absurd rfl ((bestOf_eq_none.1 hb) ▸ (List.ne_nil_of_mem hx))
    | some w =>
      rw [hb] at h; simp only [Option.some.injEq] at h
      by_cases hlt : verLt w v
      · rw [if_pos hlt] at h
        rcases List.mem_cons.1 hx with rfl | hx
        · exact h ▸ verLe_refl x
        · exact h ▸ verLe_trans (ih hb x hx) (verLe_of_lt hlt)
      · rw [if_neg hlt] at h
        rcases List.mem_cons.1 hx with rfl | hx
        · exact h ▸ verLe_of_not_lt hlt
        · exact h ▸ ih hb x hx

theorem findMatchingFilesV_perm (files : List VxFile) :
    (findMatchingFilesV files).Perm files := by
  unfold findMatchingFilesV
  exact (List.reverse_perm _).trans (List.perm_insertionSort fileLe files)

theorem findMatchingFilesV_sorted (files : List VxFile) :
    (findMatchingFilesV files).Pairwise (fun a b => fileLe b a) := by
  unfold findMatchingFilesV
  exact List.pairwise_reverse.2 (List.sorted_insertionSort fileLe files)

theorem fileLe_ts {a b : VxFile} (h : fileLe a b) : a.ts ≤ b.ts := by
  unfold fileLe at h; omega

theorem fileLe_refl (a : VxFile) : fileLe a a := by
  unfold fileLe verLe; omega

theorem headD_mem {α : Type} {l : List α} (h : l ≠ []) (d : α) :
    l.headD d ∈ l := by
  cases l with
  | nil => exact absurd rfl h
  | cons a t => exact List.mem_cons_self a t

theorem pairwise_ge_headD {l : List VxFile}
    (h : l.Pairwise (fun a b => fileLe b a)) (hne : l ≠ []) :
    ∀ g ∈ l, fileLe g (l.headD defaultFile) := by
  cases l with
  | nil => exact absurd rfl hne
  | cons m t =>
    intro g hg
    rcases List.mem_cons.1 hg with rfl | hg
    · exact fileLe_refl g
    · exact (List.pairwise_cons.1 h).1 g hg

theorem loadpath_eval_empty {files : List VxFile} {c : Option VSpec}
    (h : findMatchingFilesV files = []) :
    loadpath c files = .error .constraintError := by
  unfold loadpath
  simp [h]

theorem loadpath_eval_none {files : List VxFile}
    (h : findMatchingFilesV files ≠ []) :
    loadpath none files = .ok ((findMatchingFilesV files).headD defaultFile) := by
  unfold loadpath
  simp [h]

theorem loadpath_eval_nomatch {files : List VxFile} {cs : VSpec}
    (h : findMatchingFilesV files ≠ [])
    (hsel : specSelect cs ((findMatchingFilesV files).map VxFile.ver) = none) :
    loadpath (some cs) files = .error .constraintError := by
  unfold loadpath
  simp [h, hsel]

theorem loadpath_eval_best {files : List VxFile} {cs : VSpec} {best : SemVer}
    (h : findMatchingFilesV files ≠ [])
    (hsel : specSelect cs ((findMatchingFilesV files).map VxFile.ver) = some best) :
    loadpath (some cs) files =
      .ok (((findMatchingFilesV files).filter
        (fun f => f.ver == best)).headD defaultFile) := by
  unfold loadpath
  simp [h, hsel]

/-- C1: on a non-empty candidate set, VeloxObject.loadpath with a registered
constraint returns a candidate whose version satisfies the constraint and is
highest among satisfying candidate versions (constraint-selection, not
recency-selection), breaking ties between files sharing the selected version
by most-recent timestamp; it raises VeloxConstraintError when no candidate
version satisfies the constraint; with no constraint it returns a candidate
of maximal timestamp. On the concrete set at versions 1.0.0/0.2.1/0.3.0, the
constraint below 1.0.0 resolves the file at version 0.3.0 (despite version
1.0.0 being most recent) and the constraint at-least 2.0.0 fails. -/
theorem loadpath_constraint_resolution (files : List VxFile) (cs : VSpec)
    (hne : files ≠ []) :
    ((∃ f ∈ files, specMatch cs f.ver) →
      ∃ f, loadpath (some cs) files = .ok f ∧ f ∈ files ∧ specMatch cs f.ver ∧
        (∀ g ∈ files, specMatch cs g.ver → verLe g.ver f.ver) ∧
        (∀ g ∈ files, g.ver = f.ver → g.ts ≤ f.ts)) ∧
    ((∀ f ∈ files, ¬ specMatch cs f.ver) →
      loadpath (some cs) files = .error .constraintError) ∧
    (∃ f, loadpath none files = .ok f ∧ f ∈ files ∧
      ∀ g ∈ files, g.ts ≤ f.ts) ∧
    (loadpath (some [(CmpOp.ltOp, ⟨1, 0, 0⟩)]) demoFiles = .ok ⟨1, ⟨0, 3, 0⟩⟩ ∧
      loadpath (some [(CmpOp.geOp, ⟨2, 0, 0⟩)]) demoFiles =
        .error .constraintError) := by
  have hperm := findMatchingFilesV_perm files
  have hsorted := findMatchingFilesV_sorted files
  have hLne : findMatchingFilesV files ≠ [] := by
    intro h0
    rw [h0] at hperm
    exact hne (List.perm_nil.1 hperm.symm)
  refine ⟨?_, ?_, ?_, by decide, by decide⟩
  · rintro ⟨f0, hf0, hm0⟩
    have hf0L : f0 ∈ findMatchingFilesV files := hperm.mem_iff.2 hf0
    have hv0 : f0.ver ∈ ((findMatchingFilesV files).map VxFile.ver).filter
        (fun v => decide (specMatch cs v)) :=
      List.mem_filter.2 ⟨List.mem_map_of_mem _ hf0L, by simpa using hm0⟩
    obtain ⟨best, hbest⟩ :
        ∃ b, specSelect cs ((findMatchingFilesV files).map VxFile.ver) = some b := by
      cases hsel : specSelect cs ((findMatchingFilesV files).map VxFile.ver) with
      | none =>
        unfold specSelect at hsel
        exact absurd (bestOf_eq_none.1 hsel) (List.ne_nil_of_mem hv0)
      | some b => exact ⟨b, rfl⟩
    have hbestF : best ∈ ((findMatchingFilesV files).map VxFile.ver).filter
        (fun v => decide (specMatch cs v)) := bestOf_mem hbest
    have hbestMatch : specMatch cs best := by
      have := (List.mem_filter.1 hbestF).2
      simpa using this
    have hbestGe : ∀ x ∈ ((findMatchingFilesV files).map
        VxFile.ver).filter (fun v => decide (specMatch cs v)), verLe x best :=
      bestOf_ge hbest
    have hMne : (findMatchingFilesV files).filter (fun f => f.ver == best) ≠ [] := by
      obtain ⟨g, hgL, hgv⟩ := List.mem_map.1 (List.mem_filter.1 hbestF).1
      exact List.ne_nil_of_mem (List.mem_filter.2 ⟨hgL, by simp [hgv]⟩)
    set M : List VxFile :=
      (findMatchingFilesV files).filter (fun f => f.ver == best) with hMdef
    have hheadM : M.headD defaultFile ∈ M := headD_mem hMne defaultFile
    have hheadL : M.headD defaultFile ∈ findMatchingFilesV files :=
      List.mem_of_mem_filter hheadM
    have hheadVer : (M.headD defaultFile).ver = best := by
      have := (List.mem_filter.1 hheadM).2
      simpa using this
    refine ⟨M.headD defaultFile, loadpath_eval_best hLne hbest, hperm.mem_iff.1
      hheadL, hheadVer ▸ hbestMatch, ?_, ?_⟩
    · intro g hg hgm
      have hgL : g ∈ findMatchingFilesV files := hperm.mem_iff.2 hg
      have : g.ver ∈ ((findMatchingFilesV files).map VxFile.ver).filter
          (fun v => decide (specMatch cs v)) :=
        List.mem_filter.2 ⟨List.mem_map_of_mem _ hgL, by simpa using hgm⟩
      exact hheadVer ▸ hbestGe g.ver this
    · intro g hg hgv
      have hgL : g ∈ findMatchingFilesV files := hperm.mem_iff.2 hg
      have hgM : g ∈ M :=
        List.mem_filter.2 ⟨hgL, beq_iff_eq.mpr (hgv.trans hheadVer)⟩
      have hMsorted : M.Pairwise (fun a b => fileLe b a) :=
        hsorted.filter (fun f => f.ver == best)
      exact fileLe_ts (pairwise_ge_headD hMsorted hMne g hgM)
  · intro hnone
    have hfilter : ((findMatchingFilesV files).map VxFile.ver).filter
        (fun v => decide (specMatch cs v)) = [] := by
      refine List.filter_eq_nil_iff.2 ?_
      intro v hv
      obtain ⟨g, hgL, hgv⟩ := List.mem_map.1 hv
      simpa [hgv] using hnone g (hperm.mem_iff.1 hgL)
    have hsel : specSelect cs ((findMatchingFilesV files).map VxFile.ver) = none := by
      unfold specSelect
      rw [hfilter]
      rfl
    exact loadpath_eval_nomatch hLne hsel
  · refine ⟨(findMatchingFilesV files).headD defaultFile,
      loadpath_eval_none hLne,
      hperm.mem_iff.1 (headD_mem hLne defaultFile), ?_⟩
    intro g hg
    exact fileLe_ts (pairwise_ge_headD hsorted hLne g (hperm.mem_iff.2 hg))

/-- C2: registered composite keys '{registered_name}_v{version}' are
globally unique: when the key is absent a registration succeeds and
appends the key; when the key is present — in particular after any
earlier successful registration of the same name and version, regardless
of what else was registered in between, since successful registrations
only ever add keys — a second registration raises VeloxCreationError;
and after clear_registered_names empties the table, the same
registration succeeds again. -/
theorem register_model_unique (reg : Registry) (name : List Char)
    (v : SemVer) :
    (registeredName name v ∉ reg →
      registerModel reg name v = .ok (reg ++ [registeredName name v])) ∧
    (registeredName name v ∈ reg →
      registerModel reg name v = .error .creationError) ∧
    (∀ reg1 name1 v1, registerModel reg name1 v1 = .ok reg1 →
      registeredName name v ∈ reg → registeredName name v ∈ reg1) ∧
    (clearRegisteredNames reg = [] ∧
      registerModel (clearRegisteredNames reg) name v =
        .ok [registeredName name v]) := by
  refine ⟨?_, ?_, ?_, rfl, ?_⟩
  · intro h
    unfold registerModel
    simp [h]
  · intro h
    unfold registerModel
    simp [h]
  · intro reg1 name1 v1 hok hmem
    unfold registerModel at hok
    by_cases hmem1 : registeredName name1 v1 ∈ reg
    · simp [hmem1] at hok
    · simp only [if_neg hmem1, Except.ok.injEq] at hok
      exact hok ▸ List.mem_append_left _ hmem
  · unfold registerModel clearRegisteredNames
    simp

/-- Witness for C2: registering the key model_v1.0.0 in an empty table
succeeds; registering it again against the resulting table fails with
VeloxCreationError. -/
theorem register_model_unique_witness :
    registerModel [] "model".toList ⟨1, 0, 0⟩ =
      .ok [registeredName "model".toList ⟨1, 0, 0⟩] ∧
    registerModel [registeredName "model".toList ⟨1, 0, 0⟩]
      "model".toList ⟨1, 0, 0⟩ = .error .creationError :=
  ⟨by
    have := (register_model_unique [] "model".toList ⟨1, 0, 0⟩).1
      (List.not_mem_nil _)
    simpa using this,
   (register_model_unique [registeredName "model".toList ⟨1, 0, 0⟩]
      "model".toList ⟨1, 0, 0⟩).2.1 (List.mem_singleton.2 rfl)⟩

/-- C3: the hot-swap step _increment always leaves the live object's
_scheduler and _job_pointer identities untouched; when the replacement's
content hash differs from the current one it copies the replacement's
payload and hash into self; when the hashes are equal it performs no
copy — every payload-bearing field of self is unchanged. -/
theorem increment_frame {α : Type} (self repl : ObjState α) :
    ((increment self repl).scheduler = self.scheduler ∧
      (increment self repl).jobPointer = self.jobPointer) ∧
    (self.currentSha ≠ repl.currentSha →
      (increment self repl).payload = repl.payload ∧
      (increment self repl).currentSha = repl.currentSha) ∧
    (self.currentSha = repl.currentSha →
      (increment self repl).payload = self.payload ∧
      (increment self repl).currentSha = self.currentSha) := by
  unfold increment
  by_cases h : self.currentSha = repl.currentSha <;> simp [h]

/-- Witness for C3: a concrete swap with differing hashes copies payload
and hash while preserving the scheduler and job-pointer identities. -/
theorem increment_frame_witness :
    (increment (⟨1, 7, some 3, some ['a'], false, false⟩ : ObjState Nat)
      ⟨2, 8, none, some ['b'], false, false⟩).scheduler = 7 ∧
    (increment (⟨1, 7, some 3, some ['a'], false, false⟩ : ObjState Nat)
      ⟨2, 8, none, some ['b'], false, false⟩).jobPointer = some 3 ∧
    (increment (⟨1, 7, some 3, some ['a'], false, false⟩ : ObjState Nat)
      ⟨2, 8, none, some ['b'], false, false⟩).payload = 2 ∧
    (increment (⟨1, 7, some 3, some ['a'], false, false⟩ : ObjState Nat)
      ⟨2, 8, none, some ['b'], false, false⟩).currentSha = some ['b'] := by
  have T := increment_frame (α := Nat) ⟨1, 7, some 3, some ['a'], false, false⟩
    ⟨2, 8, none, some ['b'], false, false⟩
  have hdiff := T.2.1 (by decide)
  exact ⟨T.1.1, T.1.2, hdiff.1, hdiff.2⟩

/-- C7: when candidate resolution finds no matching file, the unscheduled
reload swallows the VeloxConstraintError that the underlying load raises:
the reload returns normally with payload, scheduler identity, job pointer
and content hash all unchanged, while a direct load over the same
candidate set raises VeloxConstraintError. -/
theorem reload_swallows_constraint {α : Type} (self : ObjState α)
    (name : List Char) (c : Option VSpec) (files : List VxFile)
    (hook : VxFile → HookResult α)
    (hempty : findMatchingFilesV files = []) :
    (∃ st, reloadUnscheduled self name c files hook = .ok st ∧
      st.payload = self.payload ∧ st.scheduler = self.scheduler ∧
      st.jobPointer = self.jobPointer ∧ st.currentSha = self.currentSha) ∧
    veloxLoad name c files hook none = .error .constraintError := by
  have hload : veloxLoad name c files hook none = .error .constraintError := by
    unfold veloxLoad
    rw [loadpath_eval_empty hempty]
  have hrel : reloadUnscheduled self name c files hook =
      .ok { self with incrUnderway := true, pending := true } := by
    unfold reloadUnscheduled
    rw [hload]
  exact ⟨⟨_, hrel, rfl, rfl, rfl, rfl⟩, hload⟩

/-- Witness for C7: an unscheduled reload over an empty candidate set
returns normally with the object's fields preserved, while the direct
load fails with VeloxConstraintError. -/
theorem reload_swallows_constraint_witness :
    (∃ st, reloadUnscheduled (⟨5, 9, none, none, false, false⟩ : ObjState Nat)
        ['m'] none [] (fun _ => HookResult.nonVelox) = .ok st ∧
      st.payload = (⟨5, 9, none, none, false, false⟩ : ObjState Nat).payload ∧
      st.scheduler =
        (⟨5, 9, none, none, false, false⟩ : ObjState Nat).scheduler ∧
      st.jobPointer =
        (⟨5, 9, none, none, false, false⟩ : ObjState Nat).jobPointer ∧
      st.currentSha =
        (⟨5, 9, none, none, false, false⟩ : ObjState Nat).currentSha) ∧
    veloxLoad ['m'] none [] (fun _ => HookResult.nonVelox) none =
      .error (α := ObjState Nat) .constraintError :=
  reload_swallows_constraint ⟨5, 9, none, none, false, false⟩ ['m'] none []
    (fun _ => HookResult.nonVelox) rfl

/-- C8: once resolution produced a candidate, VeloxObject.load fails with
VeloxConstraintError when the candidate filename's digest equals the
caller-supplied skip_sha; otherwise it fails with TypeError when the
user _load hook returns an object that does not inherit from
VeloxObject; otherwise (the hook result carrying no hash, as any
freshly deserialized object does) it returns the loaded object with
current_sha set to the resolved filename's digest; and current_sha can
only be set once — the setter raises ValueError when a value is already
present. -/
theorem velox_load_skip_type_sha {α : Type} (name : List Char)
    (c : Option VSpec) (files : List VxFile) (hook : VxFile → HookResult α)
    (f : VxFile) (hres : loadpath c files = .ok f) :
    (veloxLoad name c files hook (some (fileSha name f)) =
      .error .constraintError) ∧
    (∀ skip, skip ≠ some (fileSha name f) → hook f = .nonVelox →
      veloxLoad name c files hook skip = .error .typeError) ∧
    (∀ skip st, skip ≠ some (fileSha name f) → hook f = .velox st →
      st.currentSha = none →
      veloxLoad name c files hook skip =
        .ok { st with currentSha := some (fileSha name f) }) ∧
    (∀ (st : ObjState α) v, st.currentSha ≠ none →
      setCurrentSha st v = .error .valueError) := by
  refine ⟨?_, ?_, ?_, ?_⟩
  · unfold veloxLoad
    rw [hres]
    simp
  · intro skip hskip hhook
    unfold veloxLoad
    rw [hres]
    simp [hskip, hhook]
  · intro skip st hskip hhook hsha
    unfold veloxLoad
    rw [hres]
    simp only [if_neg hskip, hhook]
    unfold setCurrentSha
    simp [hsha]
  · intro st v hst
    unfold setCurrentSha
    simp [hst]

/-- Witness for C8: over a one-candidate set, loading with skip_sha equal
to the candidate's digest fails with VeloxConstraintError, and loading
without a skip_sha succeeds with current_sha set to that digest. -/
theorem velox_load_skip_type_sha_witness :
    veloxLoad ['m'] none [⟨1, ⟨1, 0, 0⟩⟩]
      (fun _ => HookResult.velox (⟨0, 0, none, none, false, false⟩ : ObjState Nat))
      (some (fileSha ['m'] ⟨1, ⟨1, 0, 0⟩⟩)) = .error .constraintError ∧
    veloxLoad ['m'] none [⟨1, ⟨1, 0, 0⟩⟩]
      (fun _ => HookResult.velox (⟨0, 0, none, none, false, false⟩ : ObjState Nat))
      none = .ok ⟨0, 0, none, some (fileSha ['m'] ⟨1, ⟨1, 0, 0⟩⟩),
        false, false⟩ := by
  have T := velox_load_skip_type_sha (α := Nat) ['m'] none [⟨1, ⟨1, 0, 0⟩⟩]
    (fun _ => HookResult.velox ⟨0, 0, none, none, false, false⟩)
    ⟨1, ⟨1, 0, 0⟩⟩ (by decide)
  exact ⟨T.1, T.2.2.1 none ⟨0, 0, none, none, false, false⟩
    (fun h => Option.noConfusion h) rfl rfl⟩

/-- C10: load_object validates its name argument the way save_object
does: for every name that is not purely alphanumeric it raises
ValueError before consulting storage at all — the outcome is that same
ValueError for every store, scheme and secret, so no candidate listing,
read or signature check can influence it. -/
theorem load_object_name_validation {δ : Type} (name : List Char)
    (h : ¬ pyIsAlnum name) :
    ∀ (s : LiteStore δ) (versioned : Bool) (secret : Option (List Char)),
      loadObject s name versioned secret = .error .valueError := by
  intro s versioned secret
  unfold loadObject
  simp [h]

/-- Witness for C10: a name containing a space is rejected with
ValueError. -/
theorem load_object_name_validation_witness :
    loadObject ([] : LiteStore Nat) "no way".toList false none =
      .error .valueError :=
  load_object_name_validation "no way".toList (by decide) [] false none

theorem isAlphanum_ne {c : Char} (h : c.isAlphanum = true) :
    c ≠ '_' ∧ c ≠ '*' ∧ c ≠ '-' ∧ c ≠ '.' := by
  refine ⟨?_, ?_, ?_, ?_⟩ <;> intro hc <;> subst hc <;>
    exact absurd h (by decide)

theorem isDigit_ne {c : Char} (h : c.isDigit = true) :
    c ≠ '_' ∧ c ≠ '.' := by
  constructor <;> intro hc <;> subst hc <;> exact absurd h (by decide)

theorem pyIsAlnum_spec {name : List Char} (h : pyIsAlnum name = true) :
    name ≠ [] ∧ ∀ c ∈ name, c.isAlphanum = true := by
  unfold pyIsAlnum at h
  rw [Bool.and_eq_true, List.all_eq_true] at h
  refine ⟨?_, fun c hc => by simpa using h.2 c hc⟩
  cases name with
  | nil => simp at h
  | cons a l => simp

theorem globMatch_starfree {p : List Char} (hp : ∀ c ∈ p, c ≠ '*') :
    ∀ s, globMatch p s = true ↔ p = s := by
  induction p with
  | nil =>
    intro s
    cases s <;> simp [globMatch]
  | cons q ps ih =>
    intro s
    have hq : q ≠ '*' := hp q (List.mem_cons_self q ps)
    have hp2 : ∀ c ∈ ps, c ≠ '*' := fun c hc => hp c (List.mem_cons_of_mem q hc)
    cases s with
    | nil =>
      simp only [globMatch, if_neg hq]
      simp
    | cons c cs =>
      simp only [globMatch, if_neg hq, Bool.and_eq_true, beq_iff_eq,
        ih hp2 cs, List.cons.injEq]

theorem globMatch_star_any (s : List Char) : globMatch ['*'] s = true := by
  have h : ∀ t, globStar (fun u => List.isEmpty u) t = true := by
    intro t
    induction t with
    | nil => rfl
    | cons c cs ih => simp [globStar, ih]
  simp [globMatch, h s]

theorem globMatch_star_suffix {p : List Char} (hp : ∀ c ∈ p, c ≠ '*') :
    ∀ s, globMatch (p ++ ['*']) s = true ↔ ∃ t, s = p ++ t := by
  induction p with
  | nil =>
    intro s
    simpa using globMatch_star_any s
  | cons q ps ih =>
    intro s
    have hq : q ≠ '*' := hp q (List.mem_cons_self q ps)
    have hp2 : ∀ c ∈ ps, c ≠ '*' := fun c hc => hp c (List.mem_cons_of_mem q hc)
    cases s with
    | nil =>
      rw [List.cons_append]
      simp only [globMatch, if_neg hq]
      simp
    | cons c cs =>
      rw [List.cons_append]
      simp only [globMatch, if_neg hq, Bool.and_eq_true, beq_iff_eq,
        ih hp2 cs, List.cons_append, List.cons.injEq]
      constructor
      · rintro ⟨h1, t, h2⟩
        exact ⟨t, h1.symm, h2⟩
      · rintro ⟨t, h1, h2⟩
        exact ⟨h1.symm, t, h2⟩

theorem storeRead_write {δ : Type} (s : LiteStore δ) (fn : List Char)
    (env : LiteEnv δ) : storeRead (storeWrite s fn env) fn = some env := by
  unfold storeRead storeWrite
  induction s with
  | nil =>
    rw [List.filter_nil, List.nil_append,
      List.find?_cons_of_pos _ (by simp)]
    rfl
  | cons e s ih =>
    rw [List.filter_cons]
    by_cases he : e.1 = fn
    · have : (e.1 != fn) = false := by simpa using he
      rw [this, if_neg Bool.false_ne_true]
      exact ih
    · have : (e.1 != fn) = true := by simpa using he
      rw [this, if_pos rfl, List.cons_append,
        List.find?_cons_of_neg _ (by simpa using he)]
      exact ih

theorem storeNames_write_fresh {δ : Type} {s : LiteStore δ} {fn : List Char}
    (h : fn ∉ storeNames s) (env : LiteEnv δ) :
    storeNames (storeWrite s fn env) = storeNames s ++ [fn] := by
  unfold storeNames storeWrite
  rw [List.map_append]
  have : s.filter (fun e => e.1 != fn) = s := by
    rw [List.filter_eq_self]
    intro e he
    have : e.1 ≠ fn := fun hx => h (hx ▸ List.mem_map_of_mem Prod.fst he)
    simpa using this
  rw [this]
  rfl

theorem findMatchingLite_perm (names : List (List Char)) (pat : List Char) :
    (findMatchingLite names pat).Perm
      (names.filter (fun n => globMatch pat n)) := by
  unfold findMatchingLite
  exact (List.reverse_perm _).trans (List.perm_insertionSort _ _)

theorem findMatchingLite_eq_nil {names : List (List Char)} {pat : List Char} :
    findMatchingLite names pat = [] ↔
      names.filter (fun n => globMatch pat n) = [] := by
  constructor
  · intro h
    have hp := findMatchingLite_perm names pat
    rw [h] at hp
    exact List.perm_nil.1 hp.symm
  · intro h
    have hp := findMatchingLite_perm names pat
    rw [h] at hp
    exact List.perm_nil.1 hp

theorem findMatchingLite_length (names : List (List Char)) (pat : List Char) :
    (findMatchingLite names pat).length =
      (names.filter (fun n => globMatch pat n)).length :=
  (findMatchingLite_perm names pat).length_eq

theorem findMatchingLite_ne_nil_of_mem {names : List (List Char)}
    {pat x : List Char} (hx : x ∈ names) (hm : globMatch pat x = true) :
    findMatchingLite names pat ≠ [] := by
  intro h
  rw [findMatchingLite_eq_nil] at h
  have : x ∈ names.filter (fun n => globMatch pat n) :=
    List.mem_filter.2 ⟨hx, hm⟩
  rw [h] at this
  exact absurd this (List.not_mem_nil x)

theorem saveObject_unversioned_fresh {δ : Type} (s : LiteStore δ)
    (name : List Char) (payload : δ) (tag : List Char)
    (secret : Option (List Char)) (halnum : pyIsAlnum name)
    (hfresh : findMatchingLite (storeNames s) name = []) :
    saveObject s name payload tag false secret =
      .ok (storeWrite s name ⟨payload, tag, effSecret secret⟩, name) := by
  unfold saveObject
  simp [halnum, hfresh]

theorem saveObject_unversioned_exists {δ : Type} (s : LiteStore δ)
    (name : List Char) (payload : δ) (tag : List Char)
    (secret : Option (List Char)) (halnum : pyIsAlnum name)
    (hmatch : findMatchingLite (storeNames s) name ≠ []) :
    saveObject s name payload tag false secret = .error .ioError := by
  unfold saveObject
  simp [halnum, hmatch]

theorem loadObject_unversioned_nomatch {δ : Type} (s : LiteStore δ)
    (name : List Char) (secret : Option (List Char))
    (halnum : pyIsAlnum name)
    (hfresh : findMatchingLite (storeNames s) name = []) :
    loadObject s name false secret = .error .constraintError := by
  unfold loadObject
  simp [halnum, hfresh]

theorem loadObject_versioned_nomatch {δ : Type} (s : LiteStore δ)
    (name : List Char) (secret : Option (List Char))
    (halnum : pyIsAlnum name)
    (hfresh : findMatchingLite (storeNames s) (litePattern name) = []) :
    loadObject s name true secret = .error .constraintError := by
  unfold loadObject
  simp [halnum, hfresh]

theorem loadObject_unversioned_found {δ : Type} (s : LiteStore δ)
    (name : List Char) (secret : Option (List Char)) (env : LiteEnv δ)
    (halnum : pyIsAlnum name)
    (hmatch : findMatchingLite (storeNames s) name ≠ [])
    (hread : storeRead s name = some env) :
    loadObject s name false secret =
      if env.macKey ≠ effSecret secret then .error .runtimeError
      else .ok env.payload := by
  unfold loadObject
  cases hl : findMatchingLite (storeNames s) name with
  | nil => exact absurd hl hmatch
  | cons a t => simp [halnum, hl, hread]

/-- C4 (amended): load_object distinguishes absence from tampering up to
the falsy-secret default: the effective signing key is the secret itself
unless the secret is absent or empty (Python falsy), in which case it is
the module default key. Saving under an alphanumeric name with secret A
and loading with secret B raises the distinguished unauthorized
RuntimeError whenever the effective keys of A and B differ — in
particular for any two distinct secrets among which neither is falsy nor
equal to the default — and never a generic deserialization error;
loading a name with no matching file raises VeloxConstraintError under
either scheme, never the unauthorized error; and loading with no secret
an object saved with no secret succeeds and returns the payload. -/
theorem load_object_secret_enforcement {δ : Type} (s : LiteStore δ)
    (name : List Char) (payload : δ) (tag : List Char)
    (A B : Option (List Char)) (halnum : pyIsAlnum name)
    (hfresh : findMatchingLite (storeNames s) name = [])
    (hkeys : effSecret A ≠ effSecret B) :
    (∃ s1, saveObject s name payload tag false A = .ok (s1, name) ∧
      loadObject s1 name false B = .error .runtimeError) ∧
    (∀ (s2 : LiteStore δ) (secret : Option (List Char)),
      findMatchingLite (storeNames s2) name = [] →
        loadObject s2 name false secret = .error .constraintError) ∧
    (∀ (s2 : LiteStore δ) (secret : Option (List Char)),
      findMatchingLite (storeNames s2) (litePattern name) = [] →
        loadObject s2 name true secret = .error .constraintError) ∧
    (∃ s1, saveObject s name payload tag false none = .ok (s1, name) ∧
      loadObject s1 name false none = .ok payload) := by
  have hspec := pyIsAlnum_spec halnum
  have hstarfree : ∀ c ∈ name, c ≠ '*' := fun c hc =>
    (isAlphanum_ne (hspec.2 c hc)).2.1
  have hself : globMatch name name = true :=
    (globMatch_starfree hstarfree name).2 rfl
  have hmem : ∀ env : LiteEnv δ,
      name ∈ storeNames (storeWrite s name env) := by
    intro env
    unfold storeNames storeWrite
    rw [List.map_append]
    exact List.mem_append_right _ (by simp)
  have hne : ∀ env : LiteEnv δ,
      findMatchingLite (storeNames (storeWrite s name env)) name ≠ [] :=
    fun env => findMatchingLite_ne_nil_of_mem (hmem env) hself
  refine ⟨?_, ?_, ?_, ?_⟩
  · refine ⟨storeWrite s name ⟨payload, tag, effSecret A⟩,
      saveObject_unversioned_fresh s name payload tag A halnum hfresh, ?_⟩
    rw [loadObject_unversioned_found _ _ _ _ halnum (hne _)
      (storeRead_write s name _)]
    simp [hkeys]
  · exact fun s2 secret h =>
      loadObject_unversioned_nomatch s2 name secret halnum h
  · exact fun s2 secret h =>
      loadObject_versioned_nomatch s2 name secret halnum h
  · refine ⟨storeWrite s name ⟨payload, tag, effSecret none⟩,
      saveObject_unversioned_fresh s name payload tag none halnum hfresh, ?_⟩
    rw [loadObject_unversioned_found _ _ _ _ halnum (hne _)
      (storeRead_write s name _)]
    simp

/-- Counterexample to C4 as stated: the secrets "velox" and "" differ,
yet a load with the second secret succeeds on an object saved with the
first, because (secret or DEFAULT_SECRET) maps the empty, falsy secret
to the default key, which collides with the explicitly chosen secret
"velox". -/
theorem load_object_secret_mismatch_counterexample :
    "velox".toList ≠ "".toList ∧
    saveObject ([] : LiteStore Nat) "m".toList 42 "dill".toList false
      (some "velox".toList) =
      .ok ([("m".toList, ⟨42, "dill".toList, "velox".toList⟩)],
        "m".toList) ∧
    loadObject
      [("m".toList, (⟨42, "dill".toList, "velox".toList⟩ : LiteEnv Nat))]
      "m".toList false (some "".toList) = .ok 42 := by
  refine ⟨by decide, by decide, by decide⟩

/-- Witness for C4 (amended): saving with secret aaa and loading with
secret bbb (both non-falsy, effective keys differ) raises the
unauthorized RuntimeError. -/
theorem load_object_secret_enforcement_witness :
    ∃ s1, saveObject ([] : LiteStore Nat) "m".toList 7 "dill".toList false
        (some "aaa".toList) = .ok (s1, "m".toList) ∧
      loadObject s1 "m".toList false (some "bbb".toList) =
        .error .runtimeError :=
  (load_object_secret_enforcement [] "m".toList 7 "dill".toList
    (some "aaa".toList) (some "bbb".toList) (by decide) rfl (by decide)).1

theorem digitChar_toNat {d : Nat} (h : d < 10) :
    (Nat.digitChar d).toNat = 48 + d := by
  interval_cases d <;> decide

theorem digitChar_isDigit {d : Nat} (h : d < 10) :
    (Nat.digitChar d).isDigit = true := by
  interval_cases d <;> decide

theorem toDigitsCore_eq :
    ∀ (fuel n : Nat) (acc : List Char), n < fuel → n ≠ 0 →
      toDigitsCore fuel n acc =
        (Nat.digits 10 n).reverse.map Nat.digitChar ++ acc := by
  intro fuel
  induction fuel with
  | zero => intro n acc h _; omega
  | succ f ih =>
    intro n acc h hn
    rw [toDigitsCore]
    by_cases h10 : n < 10
    · rw [if_pos h10]
      have hd : Nat.digits 10 n = [n] := by
        rw [Nat.digits_def' (by norm_num) (Nat.pos_of_ne_zero hn),
          Nat.mod_eq_of_lt h10, Nat.div_eq_of_lt h10]
        simp
      rw [hd]
      simp [Nat.mod_eq_of_lt h10]
    · rw [if_neg h10]
      have hdiv_lt : n / 10 < f := by omega
      have hdiv_ne : n / 10 ≠ 0 := by omega
      rw [ih (n / 10) _ hdiv_lt hdiv_ne,
        Nat.digits_def' (b := 10) (by norm_num) (Nat.pos_of_ne_zero hn)]
      simp

theorem natChars_eq (n : Nat) :
    natChars n =
      if n = 0 then ['0']
      else (Nat.digits 10 n).reverse.map Nat.digitChar := by
  by_cases h : n = 0
  · subst h
    rfl
  · rw [if_neg h]
    exact (toDigitsCore_eq (n + 1) n [] (by omega) h).trans (by simp)

theorem natChars_digits (n : Nat) : ∀ c ∈ natChars n, c.isDigit = true := by
  intro c hc
  rw [natChars_eq] at hc
  by_cases h : n = 0
  · rw [if_pos h] at hc
    simp only [List.mem_singleton] at hc
    subst hc
    decide
  · rw [if_neg h] at hc
    obtain ⟨d, hd, rfl⟩ := List.mem_map.1 hc
    exact digitChar_isDigit
      (Nat.digits_lt_base (by norm_num) (List.mem_reverse.1 hd))

theorem charsToNat_natChars (n : Nat) : charsToNat (natChars n) = n := by
  rw [natChars_eq]
  unfold charsToNat
  by_cases h : n = 0
  · subst h
    decide
  · rw [if_neg h, List.foldl_map, List.foldl_reverse]
    have key : ∀ l : List Nat, (∀ d ∈ l, d < 10) →
        l.foldr (fun d a => 10 * a + ((Nat.digitChar d).toNat - 48)) 0 =
          Nat.ofDigits 10 l := by
      intro l
      induction l with
      | nil => intro _; simp [Nat.ofDigits]
      | cons d l ih =>
        intro hb
        rw [List.foldr_cons,
          ih (fun x hx => hb x (List.mem_cons_of_mem d hx)),
          Nat.ofDigits_cons, digitChar_toNat (hb d (List.mem_cons_self d l))]
        omega
    rw [key _ (fun d hd => Nat.digits_lt_base (by norm_num) hd)]
    exact_mod_cast Nat.ofDigits_digits 10 n

theorem natChars_inj {a b : Nat} (h : natChars a = natChars b) : a = b := by
  have ha := charsToNat_natChars a
  rw [h, charsToNat_natChars b] at ha
  exact ha.symm

theorem liteVName_inj {name : List Char} {i j : Nat}
    (h : liteVName name i = liteVName name j) : i = j := by
  unfold liteVName at h
  exact natChars_inj (List.append_cancel_left h)

theorem liteVName_matches {name : List Char} (halnum : pyIsAlnum name)
    (k : Nat) : globMatch (litePattern name) (liteVName name k) = true := by
  have hspec := pyIsAlnum_spec halnum
  have hstarfree : ∀ c ∈ name ++ ['-'], c ≠ '*' := by
    intro c hc
    rcases List.mem_append.1 hc with hc | hc
    · exact (isAlphanum_ne (hspec.2 c hc)).2.1
    · simp only [List.mem_singleton] at hc
      subst hc
      decide
  have hpat : litePattern name = (name ++ ['-']) ++ ['*'] := by
    unfold litePattern
    simp
  rw [hpat, globMatch_star_suffix hstarfree]
  exact ⟨'v' :: natChars k, by unfold liteVName; simp⟩

theorem exact_name_found_after_write {δ : Type} (s : LiteStore δ)
    (name : List Char) (halnum : pyIsAlnum name) (env : LiteEnv δ) :
    findMatchingLite (storeNames (storeWrite s name env)) name ≠ [] := by
  have hspec := pyIsAlnum_spec halnum
  have hstarfree : ∀ c ∈ name, c ≠ '*' := fun c hc =>
    (isAlphanum_ne (hspec.2 c hc)).2.1
  have hself : globMatch name name = true :=
    (globMatch_starfree hstarfree name).2 rfl
  have hmem : name ∈ storeNames (storeWrite s name env) := by
    unfold storeNames storeWrite
    rw [List.map_append]
    exact List.mem_append_right _ (by simp)
  exact findMatchingLite_ne_nil_of_mem hmem hself

theorem saveSeq_unversioned_stuck {δ : Type} (name : List Char)
    (payload : δ) (tag : List Char) (secret : Option (List Char))
    (halnum : pyIsAlnum name) :
    ∀ (M : Nat) (s1 : LiteStore δ),
      findMatchingLite (storeNames s1) name ≠ [] →
      saveSeq name payload tag false secret M s1 =
        (s1, List.replicate M none) := by
  intro M
  induction M with
  | zero => intro s1 _; rfl
  | succ n ih =>
    intro s1 h
    show saveSeq name payload tag false secret (n + 1) s1 = _
    rw [saveSeq, saveObject_unversioned_exists s1 name payload tag secret
      halnum h]
    rw [ih s1 h]
    rfl

theorem saveSeq_versioned_go {δ : Type} (name : List Char) (payload : δ)
    (tag : List Char) (secret : Option (List Char))
    (halnum : pyIsAlnum name) :
    ∀ (N : Nat) (s : LiteStore δ) (k : Nat),
      (storeNames s).filter (fun n => globMatch (litePattern name) n) =
        (List.range' 1 k).map (fun v => liteVName name v) →
      (saveSeq name payload tag true secret N s).2 =
        (List.range' (k + 1) N).map (fun v => some (liteVName name v)) := by
  intro N
  induction N with
  | zero => intro s k _; rfl
  | succ n ih =>
    intro s k hinv
    have hcount :
        (findMatchingLite (storeNames s) (litePattern name)).length = k := by
      rw [findMatchingLite_length, hinv, List.length_map, List.length_range']
    have hsave : saveObject s name payload tag true secret =
        .ok (storeWrite s (liteVName name (k + 1))
          ⟨payload, tag, effSecret secret⟩, liteVName name (k + 1)) := by
      unfold saveObject
      simp [halnum, hcount]
    have hfreshfn : liteVName name (k + 1) ∉ storeNames s := by
      intro hmem2
      have hmf : liteVName name (k + 1) ∈ (storeNames s).filter
          (fun n => globMatch (litePattern name) n) :=
        List.mem_filter.2 ⟨hmem2, liteVName_matches halnum (k + 1)⟩
      rw [hinv] at hmf
      obtain ⟨j, hj, hje⟩ := List.mem_map.1 hmf
      have hj2 := liteVName_inj hje
      have := (List.mem_range'_1.1 hj).2
      omega
    have hinv2 : (storeNames (storeWrite s (liteVName name (k + 1))
          ⟨payload, tag, effSecret secret⟩)).filter
        (fun n => globMatch (litePattern name) n) =
        (List.range' 1 (k + 1)).map (fun v => liteVName name v) := by
      rw [storeNames_write_fresh hfreshfn, List.filter_append, hinv]
      have : List.range' 1 (k + 1) = List.range' 1 k ++ [1 + k] := by
        simpa using @List.range'_concat 1 1 k
      rw [this, List.map_append]
      have h1k : 1 + k = k + 1 := by omega
      simp [liteVName_matches halnum, h1k]
    show (saveSeq name payload tag true secret (n + 1) s).2 = _
    rw [saveSeq, hsave]
    have hrange : List.range' (k + 1) (n + 1) =
        (k + 1) :: List.range' (k + 2) n := rfl
    rw [hrange, List.map_cons]
    simpa using congrArg (fun l => some (liteVName name (k + 1)) :: l)
      (ih (storeWrite s (liteVName name (k + 1))
        ⟨payload, tag, effSecret secret⟩) (k + 1) hinv2)

/-- C5: for every alphanumeric name, N+1 sequential unversioned saves to
the same fresh name succeed exactly once: the first call writes the file
and every later attempt raises the already-exists IOError, leaving the
store exactly as the single successful write left it. Every versioned
save assigns the suffix one higher than the current count of matches of
'{name}-*'; from a store with no such matches, N sequential versioned
saves produce the filenames '{name}-v1' .. '{name}-vN' — pairwise
distinct, with strictly monotonically increasing integer suffixes. -/
theorem save_object_versioned_unversioned {δ : Type} (s : LiteStore δ)
    (name : List Char) (payload : δ) (tag : List Char)
    (secret : Option (List Char)) (N : Nat) (halnum : pyIsAlnum name) :
    (findMatchingLite (storeNames s) name = [] →
      (saveSeq name payload tag false secret (N + 1) s).2 =
        some name :: List.replicate N none ∧
      (saveSeq name payload tag false secret (N + 1) s).1 =
        storeWrite s name ⟨payload, tag, effSecret secret⟩) ∧
    (saveObject s name payload tag true secret =
      .ok (storeWrite s (liteVName name
          ((findMatchingLite (storeNames s) (litePattern name)).length + 1))
          ⟨payload, tag, effSecret secret⟩,
        liteVName name
          ((findMatchingLite (storeNames s) (litePattern name)).length + 1))) ∧
    ((storeNames s).filter (fun n => globMatch (litePattern name) n) = [] →
      (saveSeq name payload tag true secret N s).2 =
        (List.range' 1 N).map (fun v => some (liteVName name v)) ∧
      ((List.range' 1 N).map (fun v => liteVName name v)).Nodup ∧
      (List.range' 1 N).Chain' (fun a b => a < b)) := by
  refine ⟨?_, ?_, ?_⟩
  · intro hfresh
    have hsave := saveObject_unversioned_fresh s name payload tag secret
      halnum hfresh
    have hstuck := saveSeq_unversioned_stuck name payload tag secret halnum N
      (storeWrite s name ⟨payload, tag, effSecret secret⟩)
      (exact_name_found_after_write s name halnum _)
    constructor
    · show (saveSeq name payload tag false secret (N + 1) s).2 = _
      rw [saveSeq, hsave]
      dsimp only
      rw [hstuck]
    · show (saveSeq name payload tag false secret (N + 1) s).1 = _
      rw [saveSeq, hsave]
      dsimp only
      rw [hstuck]
  · unfold saveObject
    simp [halnum]
  · intro hclean
    refine ⟨?_, ?_, ?_⟩
    · have := saveSeq_versioned_go name payload tag secret halnum N s 0
        (by simpa using hclean)
      simpa using this
    · have hnd : (List.range' 1 N).Nodup :=
        (List.pairwise_lt_range' 1 N).imp Nat.ne_of_lt
      exact hnd.map (fun i j h => liteVName_inj h)
    · exact (List.pairwise_lt_range' 1 N).chain'

/-- Witness for C5: with a fresh store, three unversioned saves of m
succeed once then fail twice, and two versioned saves of m produce
m-v1 then m-v2. -/
theorem save_object_versioned_unversioned_witness :
    (saveSeq "m".toList (0 : Nat) "dill".toList false none 3 []).2 =
      some "m".toList :: List.replicate 2 none ∧
    (saveSeq "m".toList (0 : Nat) "dill".toList true none 2 []).2 =
      (List.range' 1 2).map (fun v => some (liteVName "m".toList v)) :=
  ⟨((save_object_versioned_unversioned [] "m".toList 0 "dill".toList none 2
      (by decide)).1 rfl).1,
   ((save_object_versioned_unversioned [] "m".toList 0 "dill".toList none 2
      (by decide)).2.2 rfl).1⟩

/-- C6 fails on the code: with the ten candidates OBJECTNAME-v1 ..
OBJECTNAME-v10 present, versioned load_object resolves the
lexicographically greatest filename — the string sort of
find_matching_files places OBJECTNAME-v9 above OBJECTNAME-v10 — and
returns payload 9, not the payload 10 of the highest integer suffix
(the most recently assigned version). The error half of the claim does
hold: an empty candidate set raises VeloxConstraintError. -/
theorem load_object_versioned_lexicographic :
    loadObject tenVersionStore "OBJECTNAME".toList true none = .ok 9 ∧
    (9 : Nat) ≠ 10 ∧
    (∀ secret, loadObject ([] : LiteStore Nat) "OBJECTNAME".toList true
      secret = .error .constraintError) := by
  refine ⟨by decide, by decide, ?_⟩
  intro secret
  exact loadObject_versioned_nomatch [] "OBJECTNAME".toList secret
    (by decide) rfl

theorem splitChar_ne_nil (sep : Char) (cs : List Char) :
    splitChar sep cs ≠ [] := by
  cases cs with
  | nil => simp [splitChar]
  | cons c cs =>
    unfold splitChar
    cases h : splitChar sep cs with
    | nil => simp
    | cons g gs => by_cases hc : c = sep <;> simp [hc]

theorem splitChar_no_sep {sep : Char} {a : List Char}
    (ha : ∀ c ∈ a, c ≠ sep) : splitChar sep a = [a] := by
  induction a with
  | nil => rfl
  | cons c a ih =>
    have hc : c ≠ sep := ha c (List.mem_cons_self c a)
    have ha2 : ∀ x ∈ a, x ≠ sep := fun x hx => ha x (List.mem_cons_of_mem c hx)
    rw [splitChar, ih ha2]
    simp [hc]

theorem splitChar_append {sep : Char} {a : List Char}
    (ha : ∀ c ∈ a, c ≠ sep) (rest : List Char) :
    splitChar sep (a ++ sep :: rest) = a :: splitChar sep rest := by
  induction a with
  | nil =>
    rw [List.nil_append, splitChar]
    cases h : splitChar sep rest with
    | nil => exact absurd h (splitChar_ne_nil sep rest)
    | cons g gs => simp
  | cons c a ih =>
    have hc : c ≠ sep := ha c (List.mem_cons_self c a)
    have ha2 : ∀ x ∈ a, x ≠ sep := fun x hx => ha x (List.mem_cons_of_mem c hx)
    rw [List.cons_append, splitChar, ih ha2]
    simp [hc]

theorem splitextRoot_vx (root : List Char) :
    splitextRoot (root ++ ['.', 'v', 'x']) = root := by
  unfold splitextRoot
  rw [List.reverse_append,
    show (['.', 'v', 'x'] : List Char).reverse = ['x', 'v', '.'] from rfl,
    List.cons_append, List.cons_append, List.cons_append, List.nil_append]
  rw [List.dropWhile_cons, if_pos (by decide), List.dropWhile_cons,
    if_pos (by decide), List.dropWhile_cons, if_neg (by decide)]
  simp

theorem verChars_sep {v : SemVer} :
    ∀ c ∈ verChars v, c.isDigit = true ∨ c = '.' := by
  intro c hc
  unfold verChars at hc
  simp only [List.mem_append, List.mem_singleton] at hc
  rcases hc with (((hc | hc) | hc) | hc) | hc
  · exact Or.inl (natChars_digits _ c hc)
  · exact Or.inr hc
  · exact Or.inl (natChars_digits _ c hc)
  · exact Or.inr hc
  · exact Or.inl (natChars_digits _ c hc)

/-- C9: the versioned filename encoding round-trips losslessly: for every
alphanumeric logical name, every (numeric-fragment) semantic version and
every digit timestamp, decoding the encoded filename
'{timestamp}_{name}_v{version}.vx' recovers the original components —
get_specifier returns the timestamp, get_registration_name returns the
logical name, and get_semver parses back exactly the original version. -/
theorem filename_codec_roundtrip (ts name : List Char) (v : SemVer)
    (hts : ∀ c ∈ ts, c.isDigit = true) (halnum : pyIsAlnum name) :
    getSpecifier (formattedFilename ts name v) = ts ∧
    getRegistrationName (formattedFilename ts name v) = name ∧
    getSemver (formattedFilename ts name v) = some v := by
  have hspec := pyIsAlnum_spec halnum
  have hts_us : ∀ c ∈ ts, c ≠ '_' := fun c hc => (isDigit_ne (hts c hc)).1
  have hname_us : ∀ c ∈ name, c ≠ '_' := fun c hc =>
    (isAlphanum_ne (hspec.2 c hc)).1
  have hver_us : ∀ c ∈ 'v' :: verChars v, c ≠ '_' := by
    intro c hc
    rcases List.mem_cons.1 hc with rfl | hc
    · decide
    · rcases verChars_sep c hc with hd | rfl
      · exact (isDigit_ne hd).1
      · decide
  have hroot : getFilename (formattedFilename ts name v) =
      ts ++ '_' :: (name ++ '_' :: ('v' :: verChars v)) := by
    unfold getFilename formattedFilename
    have heq : ts ++ ['_'] ++ registeredName name v ++ ['.', 'v', 'x'] =
        (ts ++ '_' :: (name ++ '_' :: ('v' :: verChars v))) ++
          ['.', 'v', 'x'] := by
      unfold registeredName
      simp
    rw [heq, splitextRoot_vx]
  have hsplit : namingInfo (formattedFilename ts name v) =
      [ts, name, 'v' :: verChars v] := by
    unfold namingInfo
    rw [hroot, splitChar_append hts_us, splitChar_append hname_us,
      splitChar_no_sep hver_us]
  refine ⟨?_, ?_, ?_⟩
  · unfold getSpecifier
    rw [hsplit]
    rfl
  · unfold getRegistrationName
    rw [hsplit]
    rfl
  · unfold getSemver
    rw [hsplit]
    show parseVer (verChars v) = some v
    have hdig : ∀ m : Nat, ∀ c ∈ natChars m, c ≠ '.' :=
      fun m c hc => (isDigit_ne (natChars_digits m c hc)).2
    unfold parseVer verChars
    rw [show natChars v.major ++ ['.'] ++ natChars v.minor ++ ['.'] ++
        natChars v.patch =
        natChars v.major ++ '.' ::
          (natChars v.minor ++ '.' :: natChars v.patch) from by simp]
    rw [splitChar_append (hdig v.major), splitChar_append (hdig v.minor),
      splitChar_no_sep (hdig v.patch)]
    simp [charsToNat_natChars]

/-- Witness for C9: the codec round-trips on a 14-digit timestamp, the
name model and version 1.2.3. -/
theorem filename_codec_roundtrip_witness :
    getSpecifier (formattedFilename "20240101000000".toList "model".toList
      ⟨1, 2, 3⟩) = "20240101000000".toList ∧
    getRegistrationName (formattedFilename "20240101000000".toList
      "model".toList ⟨1, 2, 3⟩) = "model".toList ∧
    getSemver (formattedFilename "20240101000000".toList "model".toList
      ⟨1, 2, 3⟩) = some ⟨1, 2, 3⟩ :=
  filename_codec_roundtrip "20240101000000".toList "model".toList ⟨1, 2, 3⟩
    (by decide) (by decide)

/-- Witness for C1: the theorem applied to the spec's concrete candidate
set, discharging its hypotheses there; the constraint below 1.0.0 is
satisfiable (by the file at version 0.2.1) and resolution succeeds. -/
theorem loadpath_constraint_resolution_witness :
    ∃ f, loadpath (some [(CmpOp.ltOp, ⟨1, 0, 0⟩)]) demoFiles = .ok f ∧
      f ∈ demoFiles ∧ specMatch [(CmpOp.ltOp, ⟨1, 0, 0⟩)] f.ver ∧
      (∀ g ∈ demoFiles, specMatch [(CmpOp.ltOp, ⟨1, 0, 0⟩)] g.ver →
        verLe g.ver f.ver) ∧
      (∀ g ∈ demoFiles, g.ver = f.ver → g.ts ≤ f.ts) :=
  (loadpath_constraint_resolution demoFiles [(CmpOp.ltOp, ⟨1, 0, 0⟩)]
    (by decide)).1 ⟨⟨2, ⟨0, 2, 1⟩⟩, by decide, by decide⟩

end Velox
